import Mathlib

/-!
Shallow embedding of the Go backend of video-grouper-wails-vue-ts
(`src/app.go`), together with a small filesystem model over which the
bound functions `MoveVideos`, the directory scan of `SelectDirectory`,
and `GenerateThumbnail` are stated and verified.

Paths are modelled as plain strings in the clean, slash-separated form
that the application passes around (absolute paths produced by the
directory scan).  The filesystem is a finite map from file paths to
content identifiers plus a list of existing directories; sources whose
rename fails for a reason other than a missing source (cross-device
link, permissions) are listed explicitly in `crossDev`.
-/

set_option autoImplicit false

namespace VideoGrouper

/-- Decidable equality of `Except` results, used to evaluate the model
on concrete filesystems. -/
instance {ε α : Type} [DecidableEq ε] [DecidableEq α] : DecidableEq (Except ε α)
  | .error a, .error b =>
    if h : a = b then .isTrue (by rw [h]) else .isFalse (by simp [h])
  | .error _, .ok _ => .isFalse (by simp)
  | .ok _, .error _ => .isFalse (by simp)
  | .ok a, .ok b =>
    if h : a = b then .isTrue (by rw [h]) else .isFalse (by simp [h])

/-! ### Path helpers (model of Go `path/filepath` on clean paths) -/

/-- Model of Go `filepath.Join(d, f)` for a clean directory path `d`
(no trailing slash) and a plain name `f`. -/
def joinPath (d f : String) : String := d ++ "/" ++ f

/-- Model of Go `filepath.Base`: the last path element, after trailing
slashes are removed; `"/"` for a path that is all slashes, `"."` for the
empty path. -/
def baseName (p : String) : String :=
  if p.isEmpty then "."
  else
    let cs := p.toList.reverse.dropWhile (fun c => c = '/')
    match cs.takeWhile (fun c => c ≠ '/') with
    | [] => "/"
    | t => String.mk t.reverse

/-- Model of Go `filepath.Dir`: everything before the final path
element; `"."` when there is no separator, `"/"` for a root child. -/
def dirName (p : String) : String :=
  match p.toList.reverse.dropWhile (fun c => c ≠ '/') with
  | [] => "."
  | [_] => "/"
  | _ :: rest => String.mk rest.reverse

/-- Model of Go `strings.Split(s, sep)` for a one-character separator,
working on the character list of the string. -/
def goSplitChar (sep : Char) : List Char → List (List Char)
  | [] => [[]]
  | c :: rest =>
    if c = sep then [] :: goSplitChar sep rest
    else
      match goSplitChar sep rest with
      | [] => [[c]]
      | h :: t => (c :: h) :: t

/-- Model of Go `strings.Join(xs, sep)` for a one-character separator. -/
def goJoinChar (sep : Char) : List (List Char) → List Char
  | [] => []
  | [x] => x
  | x :: xs => x ++ sep :: goJoinChar sep xs

/-- The destination-directory rule of `src/app.go`:
`outputDir := strings.Join(strings.Split(firstFilePath, "."), "_")`. -/
def outputDirOf (firstFilePath : String) : String :=
  String.mk (goJoinChar '_' (goSplitChar '.' firstFilePath.toList))

/-- The extension filter of `SelectDirectory` in `src/app.go`:
`strings.HasSuffix(strings.ToLower(info.Name()), ".m4v")`. -/
def isVideoName (name : String) : Bool :=
  List.isSuffixOf ['.', 'm', '4', 'v'] (name.toList.map Char.toLower)

/-! ### Filesystem model -/

/-- A filesystem state: regular files (path to content identifier),
existing directories, and the set of source paths whose rename fails
with a non-`IsNotExist` error (cross-device link, permissions). -/
structure FS where
  files : List (String × Nat)
  dirs : List String
  crossDev : List String
deriving DecidableEq

/-- First binding of a path in an association list of files. -/
def lookupPath (p : String) : List (String × Nat) → Option Nat
  | [] => none
  | e :: rest => if e.1 = p then some e.2 else lookupPath p rest

/-- Remove every binding of a path from an association list of files. -/
def removePath (p : String) : List (String × Nat) → List (String × Nat)
  | [] => []
  | e :: rest => if e.1 = p then removePath p rest else e :: removePath p rest

/-- Content of the regular file at `p`, if any. -/
def FS.fileAt (fs : FS) (p : String) : Option Nat := lookupPath p fs.files

/-- Model of a successful `os.Stat(p)`: `p` exists as a file or as a
directory. -/
def FS.pathExists (fs : FS) (p : String) : Bool :=
  (fs.fileAt p).isSome || decide (p ∈ fs.dirs)

/-- Errors of the modelled filesystem primitives. -/
inductive FsErr where
  | exist : FsErr
  | notExist : FsErr
  | other : FsErr
deriving DecidableEq

/-- Model of Go `os.Mkdir(p, perm)`: single-level directory creation.
It fails with `EEXIST` when `p` already exists (file or directory) and
with `ENOENT` when the parent directory is missing; it creates no
intermediate directories. -/
def FS.mkdir (fs : FS) (p : String) : Except FsErr FS :=
  if fs.pathExists p then .error .exist
  else if dirName p ∈ fs.dirs then .ok { fs with dirs := p :: fs.dirs }
  else .error .notExist

/-- Model of Go `os.Rename(src, dst)` for regular files (POSIX
semantics: an existing regular file at `dst` is replaced).  It fails
with `ENOENT` when the source is missing or the destination's parent
directory does not exist, and with a generic error when the source is
marked cross-device or the destination is an existing directory. -/
def FS.rename (fs : FS) (src dst : String) : Except FsErr FS :=
  match fs.fileAt src with
  | none => .error .notExist
  | some c =>
    if src ∈ fs.crossDev then .error .other
    else if dst ∈ fs.dirs then .error .other
    else if dirName dst ∈ fs.dirs then
      .ok { fs with files := (dst, c) :: removePath dst (removePath src fs.files) }
    else .error .notExist

/-- The filesystem after a successful rename of `src` (holding content
`c`) to `dst`: `dst` now holds `c`, every binding of `src` and any
previous binding of `dst` are gone. -/
def renamed (fs : FS) (src dst : String) (c : Nat) : FS :=
  { fs with files := (dst, c) :: removePath dst (removePath src fs.files) }

/-! ### MoveVideos (`src/app.go`, lines 74-148) -/

/-- Errors returned by `MoveVideos`, one constructor per `fmt.Errorf`
site in `src/app.go` (each carries the data interpolated into the
message). -/
inductive MoveErr where
  | emptyRequest : MoveErr
  | mkdirFailed : String → MoveErr
  | sourceNotFound : String → MoveErr
  | renameFailed : String → String → MoveErr
deriving DecidableEq

/-- The per-file move loop of `MoveVideos`: for each path in order,
compute `newPath := filepath.Join(outputDir, filepath.Base(path))` and
`os.Rename`.  On a rename failure the code stats the source: if the
source no longer exists it returns the source-not-found error,
otherwise the generic move error; in both cases it stops immediately.
The filesystem reached so far is returned alongside the outcome; on
success the outcome carries `movedCount`. -/
def moveLoop (fs : FS) (outputDir : String) : List String → FS × Except MoveErr Nat
  | [] => (fs, .ok 0)
  | originalPath :: rest =>
    let fileName := baseName originalPath
    let newPath := joinPath outputDir fileName
    match fs.rename originalPath newPath with
    | .error _ =>
      if fs.pathExists originalPath then
        (fs, .error (.renameFailed fileName newPath))
      else
        (fs, .error (.sourceNotFound fileName))
    | .ok fs1 =>
      match moveLoop fs1 outputDir rest with
      | (fs2, .ok n) => (fs2, .ok (n + 1))
      | (fs2, .error e) => (fs2, .error e)
termination_by structural l => l

/-- `MoveVideos` from `src/app.go`: reject an empty request; derive the
output directory from the first path by replacing dots with
underscores; `os.Mkdir` it (aborting on failure); then move each file,
stopping at the first failure.  On success the `move-complete` payload
(count moved and destination) is returned. -/
def MoveVideos (fs : FS) (absoluteFilePaths : List String) :
    FS × Except MoveErr (Nat × String) :=
  match absoluteFilePaths with
  | [] => (fs, .error .emptyRequest)
  | firstFilePath :: _ =>
    let outputDir := outputDirOf firstFilePath
    match fs.mkdir outputDir with
    | .error _ => (fs, .error (.mkdirFailed outputDir))
    | .ok fs0 =>
      match moveLoop fs0 outputDir absoluteFilePaths with
      | (fs1, .ok n) => (fs1, .ok (n, outputDir))
      | (fs1, .error e) => (fs1, .error e)

/-! ### Directory scan of SelectDirectory (`src/app.go`, lines 52-69) -/

/-- A directory tree entry as seen by `filepath.Walk`: a regular file
with its name, or a directory with its name, a flag saying whether its
entries can be read, and its entries in traversal order. -/
inductive Entry where
  | file : String → Entry
  | dir : String → Bool → List Entry → Entry

/-- The walk of `SelectDirectory`: `filepath.Walk` over the entries of
a directory whose absolute path is `pre`.  A regular file is appended
when its lowercased name ends in `".m4v"`; a directory node itself is
never appended; a directory that cannot be read makes the walk function
receive the read error, which it returns, aborting the whole walk.  The
error carries the path of the unreadable directory. -/
def walkEntries (pre : String) : List Entry → Except String (List String)
  | [] => .ok []
  | .file name :: rest =>
    match walkEntries pre rest with
    | .error e => .error e
    | .ok l => .ok (if isVideoName name then joinPath pre name :: l else l)
  | .dir name r es :: rest =>
    if r then
      match walkEntries (joinPath pre name) es with
      | .error e => .error e
      | .ok l1 =>
        match walkEntries pre rest with
        | .error e => .error e
        | .ok l2 => .ok (l1 ++ l2)
    else .error (joinPath pre name)

/-- Every directory in a list of entries (recursively) is readable. -/
def allReadableL : List Entry → Bool
  | [] => true
  | .file _ :: rest => allReadableL rest
  | .dir _ r es :: rest => r && (allReadableL es && allReadableL rest)

/-- Declarative specification of a hit of the scan: `MatchPath pre e p`
holds when `p` is the absolute path of a regular file somewhere inside
entry `e` (placed under directory path `pre`) whose name passes the
extension filter.  Readability flags and entry order play no role. -/
inductive MatchPath : String → Entry → String → Prop where
  | file : ∀ pre name, isVideoName name = true →
      MatchPath pre (.file name) (joinPath pre name)
  | dir : ∀ pre name r es e p, e ∈ es → MatchPath (joinPath pre name) e p →
      MatchPath pre (.dir name r es) p

/-- The scan half of `SelectDirectory`: run the walk from the selected
root (whose own readability is `rootReadable`); on success return the
collected paths and no error, on failure return no list (`nil` in Go)
and the error. -/
def SelectDirectoryScan (root : String) (rootReadable : Bool) (es : List Entry) :
    Option (List String) × Option String :=
  if rootReadable then
    match walkEntries root es with
    | .ok videoFiles => (some videoFiles, none)
    | .error e => (none, some e)
  else (none, some root)

/-! ### GenerateThumbnail (`src/app.go`, lines 151-205) -/

/-- Outcome of one run of the external `ffmpeg` command: `exitErr` is
`some msg` when `cmd.Run()` returned an error (non-zero exit, or the
binary could not be invoked), and the captured standard output (bytes)
and standard error. -/
structure ToolRun where
  exitErr : Option String
  stdout : List Nat
  stderr : String

/-- Errors of `GenerateThumbnail`, one per `fmt.Errorf` site:
`execFailed` carries the error text together with the tool's captured
standard error; `noData` carries the video path. -/
inductive ThumbErr where
  | execFailed : String → String → ThumbErr
  | noData : String → ThumbErr
deriving DecidableEq

/-- The base64 alphabet of `encoding/base64` (`StdEncoding`). -/
def base64Table : List Char :=
  "ABCDEFGHIJKLMNOPQRSTUVWXYZabcdefghijklmnopqrstuvwxyz0123456789+/".toList

/-- One alphabet character from a 6-bit value. -/
def base64Char (n : Nat) : Char := base64Table.getD n '='

/-- Model of `base64.StdEncoding.EncodeToString` on a byte list. -/
def base64Encode : List Nat → List Char
  | [] => []
  | [b1] =>
    let n := b1 % 256
    [base64Char (n / 4), base64Char (n % 4 * 16), '=', '=']
  | [b1, b2] =>
    let n := b1 % 256 * 256 + b2 % 256
    [base64Char (n / 1024), base64Char (n / 16 % 64), base64Char (n % 16 * 4), '=']
  | b1 :: b2 :: b3 :: rest =>
    let n := b1 % 256 * 65536 + b2 % 256 * 256 + b3 % 256
    base64Char (n / 262144) :: base64Char (n / 4096 % 64) :: base64Char (n / 64 % 64) ::
      base64Char (n % 64) :: base64Encode rest

/-- `GenerateThumbnail` from `src/app.go`, with the `ffmpeg` invocation
abstracted as its observed outcome `run`: a failed `cmd.Run()` yields
the execution error (message plus captured stderr); an empty stdout
yields the distinct no-data error; otherwise the bytes are base64
encoded into a JPEG data URL. -/
def GenerateThumbnail (videoPath : String) (run : ToolRun) : Except ThumbErr String :=
  match run.exitErr with
  | some msg =>
    .error (.execFailed ("ffmpeg execution failed for " ++ videoPath ++ ": " ++ msg)
      run.stderr)
  | none =>
    if run.stdout.isEmpty then
      .error (.noData videoPath)
    else
      .ok ("data:image/jpeg;base64," ++ String.mk (base64Encode run.stdout))

/-! ### Destination rule as the specification words it for `src/app.go` -/

/-- Modelled from the spec: the destination-folder rule that the
specification attributes to `src/app.go` — "strips the file extension
and replaces each path separator with an underscore".  The extension is
the suffix of the final path element from its last dot (empty when the
final element has no dot), as `filepath.Ext` computes it. -/
def specSeparatorRule (p : String) : String :=
  let cs := p.toList
  let base := cs.reverse.takeWhile (fun c => c ≠ '/')
  let noExt :=
    if base.contains '.' then ((cs.reverse.dropWhile (fun c => c ≠ '.')).tail).reverse
    else cs
  String.mk (noExt.map (fun c => if c = '/' then '_' else c))

/-- Character-level replacement of dots by underscores; the amended
description of the `src/app.go` destination rule. -/
def dotToUnderscore (p : String) : String :=
  String.mk (p.toList.map (fun c => if c = '.' then '_' else c))

/-! ### Concrete states used by the witnesses and counterexamples -/

/-- Five videos in `/vids`, all present; used by the C2 witness. -/
def fsAll : FS :=
  { files := [("/vids/a1.m4v", 1), ("/vids/a2.m4v", 2), ("/vids/a3.m4v", 3),
      ("/vids/a4.m4v", 4), ("/vids/a5.m4v", 5)]
    dirs := ["/", "/vids"]
    crossDev := [] }

/-- Five videos were scanned from `/vids` but the third was deleted
externally before the move; used by the C1 witness. -/
def fsThirdGone : FS :=
  { files := [("/vids/b1.m4v", 1), ("/vids/b2.m4v", 2),
      ("/vids/b4.m4v", 4), ("/vids/b5.m4v", 5)]
    dirs := ["/", "/vids"]
    crossDev := [] }

/-- The state of `fsThirdGone` right after the destination directory
`/vids/b1_m4v` has been created. -/
def fsThirdGoneDir : FS :=
  { files := [("/vids/b1.m4v", 1), ("/vids/b2.m4v", 2),
      ("/vids/b4.m4v", 4), ("/vids/b5.m4v", 5)]
    dirs := ["/vids/b1_m4v", "/", "/vids"]
    crossDev := [] }

/-- The state of `fsThirdGone` after the first two files have been
moved into the freshly created `/vids/b1_m4v`. -/
def fsThirdGoneMoved : FS :=
  { files := [("/vids/b1_m4v/b2.m4v", 2), ("/vids/b1_m4v/b1.m4v", 1),
      ("/vids/b4.m4v", 4), ("/vids/b5.m4v", 5)]
    dirs := ["/vids/b1_m4v", "/", "/vids"]
    crossDev := [] }

/-- A video inside a directory whose name contains a dot: the resolved
destination `/data/clips_v1/movie_m4v` has a missing parent.  Used by
the C3 counterexample. -/
def fsDottedDir : FS :=
  { files := [("/data/clips.v1/movie.m4v", 1)]
    dirs := ["/", "/data", "/data/clips.v1"]
    crossDev := [] }

/-- The resolved destination `/vids/c1_m4v` already exists as a
directory; used by the C9 witness and the C3 witness. -/
def fsDestTaken : FS :=
  { files := [("/vids/c1.m4v", 1), ("/vids/c2.m4v", 2)]
    dirs := ["/", "/vids", "/vids/c1_m4v"]
    crossDev := [] }

/-- Two videos with the same basename in different directories; used by
the C10 witness. -/
def fsTwins : FS :=
  { files := [("/x/v.m4v", 1), ("/y/v.m4v", 2)]
    dirs := ["/", "/x", "/y"]
    crossDev := [] }

/-- A tree with matching, non-matching and uppercase extensions; used
by the C6 witness. -/
def treeMixed : List Entry :=
  [Entry.file "a.m4v", Entry.file "b.mp4", Entry.file "c.M4V",
    Entry.dir "sub" true [Entry.file "d.m4v", Entry.file "notes.txt"]]

/-- A tree whose matching file is discovered before an unreadable
subdirectory; used by the C7 witness. -/
def treeLocked : List Entry :=
  [Entry.file "a.m4v", Entry.dir "locked" false [Entry.file "z.m4v"],
    Entry.file "b.m4v"]

/-! ### Helper lemmas -/

theorem goSplitChar_ne_nil (sep : Char) (l : List Char) : goSplitChar sep l ≠ [] := by
  cases l with
  | nil => simp [goSplitChar]
  | cons c rest =>
    simp only [goSplitChar]
    split
    · simp
    · split <;> simp

theorem goJoinChar_goSplitChar (sep rep : Char) (l : List Char) :
    goJoinChar rep (goSplitChar sep l) =
      l.map (fun c => if c = sep then rep else c) := by
  induction l with
  | nil => rfl
  | cons c rest ih =>
    have hne := goSplitChar_ne_nil sep rest
    cases hs : goSplitChar sep rest with
    | nil => exact absurd hs hne
    | cons h t =>
      rw [hs] at ih
      by_cases hc : c = sep
      · simp [goSplitChar, hc, hs, goJoinChar, ih]
      · cases t with
        | nil => simp_all [goSplitChar, goJoinChar, hc]
        | cons t1 t2 => simp_all [goSplitChar, goJoinChar, hc]

theorem lookupPath_removePath (p q : String) (l : List (String × Nat)) :
    lookupPath p (removePath q l) = if p = q then none else lookupPath p l := by
  induction l with
  | nil => simp [removePath, lookupPath]
  | cons e rest ih =>
    by_cases h1 : e.1 = q
    · by_cases h2 : p = q
      · subst h2
        simp [removePath, h1, ih]
      · have h3 : ¬ e.1 = p := fun h => h2 (h.symm.trans h1)
        have h4 : ¬ q = p := fun h => h2 h.symm
        simp [removePath, lookupPath, h1, h2, h3, h4, ih]
    · by_cases h2 : e.1 = p
      · have h3 : ¬ p = q := fun hpq => h1 (h2.trans hpq)
        simp [removePath, lookupPath, h1, h2, h3]
      · simp [removePath, lookupPath, h1, h2, ih]

theorem rename_ok (fs : FS) (src dst : String) (c : Nat)
    (hsrc : fs.fileAt src = some c)
    (hcd : ¬ src ∈ fs.crossDev)
    (hdst : ¬ dst ∈ fs.dirs)
    (hpar : dirName dst ∈ fs.dirs) :
    fs.rename src dst = .ok (renamed fs src dst c) := by
  simp [FS.rename, renamed, hsrc, hcd, hdst, hpar]

theorem lookupPath_update (fs : FS) (src dst : String) (c : Nat) (r : String) :
    lookupPath r ((dst, c) :: removePath dst (removePath src fs.files)) =
      if r = dst then some c else if r = src then none else fs.fileAt r := by
  by_cases h1 : r = dst
  · simp [lookupPath, h1]
  · have h1s : ¬ dst = r := fun h => h1 h.symm
    simp only [lookupPath, if_neg h1s, lookupPath_removePath, if_neg h1, FS.fileAt]

theorem fileAt_renamed (fs : FS) (src dst : String) (c : Nat) (r : String) :
    (renamed fs src dst c).fileAt r =
      if r = dst then some c else if r = src then none else fs.fileAt r :=
  lookupPath_update fs src dst c r

theorem renamed_dirs (fs : FS) (src dst : String) (c : Nat) :
    (renamed fs src dst c).dirs = fs.dirs := rfl

theorem renamed_crossDev (fs : FS) (src dst : String) (c : Nat) :
    (renamed fs src dst c).crossDev = fs.crossDev := rfl

theorem moveLoop_append (d : String) (xs ys : List String) (fs fsm : FS) (n : Nat)
    (h : moveLoop fs d xs = (fsm, .ok n)) :
    moveLoop fs d (xs ++ ys) =
      match moveLoop fsm d ys with
      | (fs2, .ok m) => (fs2, .ok (m + n))
      | (fs2, .error e) => (fs2, .error e) := by
  induction xs generalizing fs n with
  | nil =>
    simp only [moveLoop, Prod.mk.injEq, Except.ok.injEq] at h
    obtain ⟨rfl, rfl⟩ := h
    simp only [List.nil_append]
    cases hm : moveLoop fs d ys with
    | mk fs2 r => cases r <;> simp [hm]
  | cons x xs ih =>
    cases hr : fs.rename x (joinPath d (baseName x)) with
    | error e =>
      simp only [moveLoop, hr] at h
      split at h <;> simp at h
    | ok fs1 =>
      simp only [moveLoop, hr] at h
      cases hm : moveLoop fs1 d xs with
      | mk fs2 r =>
        simp only [hm] at h
        cases r with
        | error e => simp at h
        | ok m =>
          simp only [Prod.mk.injEq, Except.ok.injEq] at h
          obtain ⟨rfl, rfl⟩ := h
          simp only [List.cons_append, moveLoop, hr, List.append_eq, ih fs1 m hm]
          cases hy : moveLoop fs2 d ys with
          | mk fs3 s =>
            cases s with
            | error e => simp [hy]
            | ok k =>
              simp only [hy]
              rw [Nat.add_assoc]

theorem moveLoop_ok (d : String) (xs : List String) (fs : FS)
    (hnd : xs.Nodup)
    (hmem : ∀ p ∈ xs, (fs.fileAt p).isSome = true)
    (hcd : ∀ p ∈ xs, ¬ p ∈ fs.crossDev)
    (hd : d ∈ fs.dirs)
    (hdst : ∀ p ∈ xs, ¬ joinPath d (baseName p) ∈ fs.dirs)
    (hpar : ∀ p ∈ xs, dirName (joinPath d (baseName p)) = d)
    (hsd : ∀ p ∈ xs, ∀ q ∈ xs, p ≠ joinPath d (baseName q)) :
    (moveLoop fs d xs).2 = .ok xs.length ∧
    (moveLoop fs d xs).1.dirs = fs.dirs ∧
    (moveLoop fs d xs).1.crossDev = fs.crossDev ∧
    ∀ r, (((moveLoop fs d xs).1.fileAt r).isSome = true ↔
      (((fs.fileAt r).isSome = true ∧ ¬ r ∈ xs) ∨
        r ∈ xs.map (fun p => joinPath d (baseName p)))) := by
  induction xs generalizing fs with
  | nil => simp [moveLoop]
  | cons x rest ih =>
    have hx : x ∈ x :: rest := List.mem_cons_self x rest
    obtain ⟨c, hc⟩ := Option.isSome_iff_exists.mp (hmem x hx)
    have hren : fs.rename x (joinPath d (baseName x)) =
        .ok (renamed fs x (joinPath d (baseName x)) c) :=
      rename_ok fs x _ c hc (hcd x hx) (hdst x hx) (by rw [hpar x hx]; exact hd)
    have hnd1 := List.nodup_cons.mp hnd
    have hstep := ih (renamed fs x (joinPath d (baseName x)) c) hnd1.2
      (fun p hp => by
        rw [fileAt_renamed,
          if_neg (hsd p (List.mem_cons_of_mem x hp) x hx),
          if_neg (fun hpx : p = x => hnd1.1 (hpx ▸ hp))]
        exact hmem p (List.mem_cons_of_mem x hp))
      (fun p hp => by
        rw [renamed_crossDev]
        exact hcd p (List.mem_cons_of_mem x hp))
      (by rw [renamed_dirs]; exact hd)
      (fun p hp => by
        rw [renamed_dirs]
        exact hdst p (List.mem_cons_of_mem x hp))
      (fun p hp => hpar p (List.mem_cons_of_mem x hp))
      (fun p hp q hq => hsd p (List.mem_cons_of_mem x hp) q (List.mem_cons_of_mem x hq))
    obtain ⟨ih1, ih2, ih3, ih4⟩ := hstep
    have hdnr : ¬ joinPath d (baseName x) ∈ rest := fun hmem2 =>
      hsd (joinPath d (baseName x)) (List.mem_cons_of_mem x hmem2) x hx rfl
    cases hm : moveLoop (renamed fs x (joinPath d (baseName x)) c) d rest with
    | mk fs2 r2 =>
      simp only [hm] at ih1 ih2 ih3 ih4
      subst ih1
      refine ⟨by simp [moveLoop, hren, hm], ?_, ?_, ?_⟩
      · simp only [moveLoop, hren, hm]
        rw [ih2, renamed_dirs]
      · simp only [moveLoop, hren, hm]
        rw [ih3, renamed_crossDev]
      · intro r
        simp only [moveLoop, hren, hm]
        rw [ih4 r, fileAt_renamed]
        by_cases hrdst : r = joinPath d (baseName x)
        · subst hrdst
          simp [hdnr, List.mem_cons]
        · by_cases hrx : r = x
          · subst hrx
            simp [hrdst, List.mem_cons, hnd1.1]
          · simp [hrdst, hrx, List.mem_cons]

theorem matchPath_file_iff (pre name p : String) :
    MatchPath pre (.file name) p ↔
      isVideoName name = true ∧ p = joinPath pre name := by
  constructor
  · intro h
    cases h with
    | file _ _ hv => exact ⟨hv, rfl⟩
  · rintro ⟨hv, rfl⟩
    exact MatchPath.file pre name hv

theorem matchPath_dir_iff (pre name : String) (r : Bool) (es : List Entry) (p : String) :
    MatchPath pre (.dir name r es) p ↔
      ∃ e ∈ es, MatchPath (joinPath pre name) e p := by
  constructor
  · intro h
    cases h with
    | dir _ _ _ _ e _ he hm => exact ⟨e, he, hm⟩
  · rintro ⟨e, he, hm⟩
    exact MatchPath.dir pre name r es e p he hm

theorem walkEntries_ok (pre : String) (es : List Entry)
    (h : allReadableL es = true) :
    ∃ l, walkEntries pre es = .ok l ∧
      ∀ p, (p ∈ l ↔ ∃ e ∈ es, MatchPath pre e p) := by
  match es with
  | [] => exact ⟨[], by simp [walkEntries], by simp⟩
  | .file name :: rest =>
    have hrest : allReadableL rest = true := by simpa [allReadableL] using h
    obtain ⟨l, hl, hiff⟩ := walkEntries_ok pre rest hrest
    refine ⟨if isVideoName name then joinPath pre name :: l else l, ?_, ?_⟩
    · simp [walkEntries, hl]
    · intro p
      rw [List.exists_mem_cons_iff, matchPath_file_iff]
      by_cases hv : isVideoName name = true
      · simp [hv, hiff p]
      · simp [hv, hiff p]
  | .dir name r es1 :: rest =>
    have h3 : r = true ∧ allReadableL es1 = true ∧ allReadableL rest = true := by
      simpa [allReadableL, Bool.and_eq_true, and_assoc] using h
    obtain ⟨hr, hes1, hrest⟩ := h3
    obtain ⟨l1, hl1, hiff1⟩ := walkEntries_ok (joinPath pre name) es1 hes1
    obtain ⟨l2, hl2, hiff2⟩ := walkEntries_ok pre rest hrest
    refine ⟨l1 ++ l2, ?_, ?_⟩
    · simp [walkEntries, hr, hl1, hl2]
    · intro p
      rw [List.mem_append, List.exists_mem_cons_iff, matchPath_dir_iff]
      rw [hiff1 p, hiff2 p]
termination_by sizeOf es

theorem walkEntries_err (pre : String) (es : List Entry)
    (h : allReadableL es = false) :
    ∃ msg, walkEntries pre es = .error msg := by
  match es with
  | [] => simp [allReadableL] at h
  | .file name :: rest =>
    have hrest : allReadableL rest = false := by simpa [allReadableL] using h
    obtain ⟨msg, hm⟩ := walkEntries_err pre rest hrest
    exact ⟨msg, by simp [walkEntries, hm]⟩
  | .dir name r es1 :: rest =>
    by_cases hr : r = true
    · rw [hr] at h
      simp only [allReadableL, Bool.true_and, Bool.and_eq_false_iff] at h
      cases h with
      | inl hes1 =>
        obtain ⟨msg, hm⟩ := walkEntries_err (joinPath pre name) es1 hes1
        exact ⟨msg, by simp [walkEntries, hr, hm]⟩
      | inr hrest =>
        obtain ⟨msg, hm⟩ := walkEntries_err pre rest hrest
        cases hw : walkEntries (joinPath pre name) es1 with
        | error msg2 => exact ⟨msg2, by simp [walkEntries, hr, hw]⟩
        | ok l1 => exact ⟨msg, by simp [walkEntries, hr, hw, hm]⟩
    · have hrf : r = false := by simpa using hr
      exact ⟨joinPath pre name, by simp [walkEntries, hrf]⟩
termination_by sizeOf es

/-! ### Claim theorems -/

/-- C5: For every move request with zero entries, `MoveVideos` returns
an error and the filesystem is returned unchanged — no directory is
created and no filesystem mutation of any kind happens before the
rejection. -/
theorem c5_empty_request_rejected (fs : FS) :
    MoveVideos fs [] = (fs, .error .emptyRequest) := rfl

/-- C9: For every non-empty move request whose resolved destination
path already exists — as a file or as a directory — `MoveVideos`
returns the directory-creation error and moves no files (the state is
unchanged), because `os.Mkdir` fails on any pre-existing path. -/
theorem c9_existing_destination_aborts (fs : FS) (p0 : String) (rest : List String)
    (h : fs.pathExists (outputDirOf p0) = true) :
    MoveVideos fs (p0 :: rest) = (fs, .error (.mkdirFailed (outputDirOf p0))) := by
  simp [MoveVideos, FS.mkdir, h]

/-- C9 witness: the destination `/vids/c1_m4v` resolved from
`/vids/c1.m4v` already exists as a directory; the whole request is
rejected with the creation error and the state is unchanged. -/
theorem c9_witness :
    FS.pathExists fsDestTaken (outputDirOf "/vids/c1.m4v") = true ∧
    MoveVideos fsDestTaken ["/vids/c1.m4v", "/vids/c2.m4v"] =
      (fsDestTaken, .error (.mkdirFailed "/vids/c1_m4v")) :=
  ⟨by decide,
    c9_existing_destination_aborts fsDestTaken "/vids/c1.m4v" ["/vids/c2.m4v"] (by decide)⟩

/-- C3 counterexample: `src/app.go` does not create missing
intermediate directories.  For `/data/clips.v1/movie.m4v` the resolved
destination is `/data/clips_v1/movie_m4v`, whose parent
`/data/clips_v1` does not exist; `MoveVideos` aborts with the
directory-creation error, the destination is not created (neither is
any intermediate), contradicting the claim that creation includes any
missing intermediate directories. -/
theorem c3_counterexample :
    MoveVideos fsDottedDir ["/data/clips.v1/movie.m4v"] =
      (fsDottedDir, .error (.mkdirFailed "/data/clips_v1/movie_m4v")) ∧
    ¬ "/data/clips_v1/movie_m4v" ∈
      (MoveVideos fsDottedDir ["/data/clips.v1/movie.m4v"]).1.dirs ∧
    ¬ "/data/clips_v1" ∈
      (MoveVideos fsDottedDir ["/data/clips.v1/movie.m4v"]).1.dirs := by
  refine ⟨by decide, by decide, by decide⟩

/-- C3 (amended): in the `CreateDestination` step `MoveVideos`
(`src/app.go`) creates the destination with a single-level `os.Mkdir`
before moving any file; creation fails — aborting the whole batch with
an error while the filesystem is still completely untouched — whenever
the resolved destination already exists or its parent directory is
missing; missing intermediate directories are not created. -/
theorem c3_amended_mkdir_single_level (fs : FS) (p0 : String) (rest : List String)
    (h : fs.pathExists (outputDirOf p0) = true ∨ ¬ dirName (outputDirOf p0) ∈ fs.dirs) :
    MoveVideos fs (p0 :: rest) = (fs, .error (.mkdirFailed (outputDirOf p0))) := by
  cases h with
  | inl h1 => simp [MoveVideos, FS.mkdir, h1]
  | inr h1 =>
    by_cases h2 : fs.pathExists (outputDirOf p0) = true
    · simp [MoveVideos, FS.mkdir, h2]
    · simp [MoveVideos, FS.mkdir, h2, h1]

/-- C3 witness: the parent `/data/clips_v1` of the resolved destination
is missing, so the single-level creation fails and the batch aborts
with the state unchanged. -/
theorem c3_witness :
    ¬ dirName (outputDirOf "/data/clips.v1/movie.m4v") ∈ fsDottedDir.dirs ∧
    MoveVideos fsDottedDir ["/data/clips.v1/movie.m4v"] =
      (fsDottedDir, .error (.mkdirFailed "/data/clips_v1/movie_m4v")) :=
  ⟨by decide,
    c3_amended_mkdir_single_level fsDottedDir "/data/clips.v1/movie.m4v" []
      (Or.inr (by decide))⟩

/-- C4 counterexample: the rule of `src/app.go` applied to
`/a/video.m4v` yields `/a/video_m4v` (every dot replaced by an
underscore, separators intact), not `_a_video` as the claimed rule
(strip the extension, replace each path separator by an underscore)
would produce. -/
theorem c4_counterexample :
    outputDirOf "/a/video.m4v" = "/a/video_m4v" ∧
    specSeparatorRule "/a/video.m4v" = "_a_video" ∧
    outputDirOf "/a/video.m4v" ≠ specSeparatorRule "/a/video.m4v" := by
  refine ⟨by decide, by decide, by decide⟩

/-- C4 (amended): the destination rule of `src/app.go` replaces every
dot of the first selected path by an underscore and leaves every other
character — path separators included — unchanged; the extension is not
stripped, its dot is replaced like any other dot.  (The variant in
`src/unnamed/part_001` instead joins the directory two levels up with
the extension-stripped basename.) -/
theorem c4_amended_dot_replacement (p : String) :
    outputDirOf p = dotToUnderscore p := by
  unfold outputDirOf dotToUnderscore
  rw [goJoinChar_goSplitChar]

/-- C1: When some file's rename fails, `MoveVideos` stops at the first
failing file: if the source of that file no longer exists it returns
the specific source-not-found error, otherwise the generic move error;
the final filesystem is exactly the state `fsm` reached after moving
the files before the failure (no rollback), and — the files after the
failing one being arbitrary (`post` is universally quantified and
absent from the result) — files not yet reached are untouched at their
original paths. -/
theorem c1_first_failure_stops_batch
    (fs fs0 fsm : FS) (pre : List String) (bad : String) (post : List String)
    (p0 : String) (tl : List String) (n : Nat) (e : FsErr)
    (hsplit : pre ++ bad :: post = p0 :: tl)
    (hmk : fs.mkdir (outputDirOf p0) = .ok fs0)
    (hpre : moveLoop fs0 (outputDirOf p0) pre = (fsm, .ok n))
    (hbad : fsm.rename bad (joinPath (outputDirOf p0) (baseName bad)) = .error e) :
    MoveVideos fs (pre ++ bad :: post) =
      (fsm, .error
        (if fsm.pathExists bad then
          MoveErr.renameFailed (baseName bad) (joinPath (outputDirOf p0) (baseName bad))
        else MoveErr.sourceNotFound (baseName bad))) := by
  have hbadstep : moveLoop fsm (outputDirOf p0) (bad :: post) =
      (fsm, .error
        (if fsm.pathExists bad then
          MoveErr.renameFailed (baseName bad) (joinPath (outputDirOf p0) (baseName bad))
        else MoveErr.sourceNotFound (baseName bad))) := by
    cases hpe : fsm.pathExists bad <;> simp [moveLoop, hbad, hpe]
  have hloop := moveLoop_append (outputDirOf p0) pre (bad :: post) fs0 fsm n hpre
  rw [hbadstep] at hloop
  simp only [] at hloop
  rw [hsplit]
  simp only [MoveVideos, hmk]
  rw [← hsplit, hloop]

/-- C1 witness: of five scanned files the third was deleted before the
call; `MoveVideos` moves the first two, halts with the source-not-found
error, and the final state has the first two files moved while the
fourth and the fifth are untouched at their original paths and the
third does not exist. -/
theorem c1_witness :
    MoveVideos fsThirdGone
        ["/vids/b1.m4v", "/vids/b2.m4v", "/vids/b3.m4v", "/vids/b4.m4v", "/vids/b5.m4v"] =
      (fsThirdGoneMoved, .error (.sourceNotFound "b3.m4v")) ∧
    fsThirdGoneMoved.fileAt "/vids/b1_m4v/b1.m4v" = some 1 ∧
    fsThirdGoneMoved.fileAt "/vids/b1_m4v/b2.m4v" = some 2 ∧
    fsThirdGoneMoved.fileAt "/vids/b4.m4v" = some 4 ∧
    fsThirdGoneMoved.fileAt "/vids/b5.m4v" = some 5 ∧
    fsThirdGoneMoved.fileAt "/vids/b3.m4v" = none := by
  refine ⟨?_, by decide, by decide, by decide, by decide, by decide⟩
  have h := c1_first_failure_stops_batch fsThirdGone fsThirdGoneDir fsThirdGoneMoved
    ["/vids/b1.m4v", "/vids/b2.m4v"] "/vids/b3.m4v" ["/vids/b4.m4v", "/vids/b5.m4v"]
    "/vids/b1.m4v" ["/vids/b2.m4v", "/vids/b3.m4v", "/vids/b4.m4v", "/vids/b5.m4v"]
    2 .notExist (by decide) (by decide) (by decide) (by decide)
  have hif : fsThirdGoneMoved.pathExists "/vids/b3.m4v" = false := by decide
  rw [hif] at h
  simp only [Bool.false_eq_true, if_false] at h
  exact h

/-- C2: For every non-empty move request whose files all exist, are all
renameable, and whose resolved destination is fresh and creatable,
`MoveVideos` succeeds: it returns no error, reports a moved count equal
to the length of the request together with the destination path, the
final filesystem holds exactly the requested files under their
basenames in the destination (plus all untouched other files), and none
of the source paths exists any more. -/
theorem c2_move_all_success (fs : FS) (p0 : String) (rest : List String)
    (hnd : (p0 :: rest).Nodup)
    (hmem : ∀ p ∈ p0 :: rest, (fs.fileAt p).isSome = true)
    (hcd : ∀ p ∈ p0 :: rest, ¬ p ∈ fs.crossDev)
    (hfresh : fs.pathExists (outputDirOf p0) = false)
    (hpar : dirName (outputDirOf p0) ∈ fs.dirs)
    (hdstd : ∀ p ∈ p0 :: rest, ¬ joinPath (outputDirOf p0) (baseName p) ∈ fs.dirs)
    (hdstne : ∀ p ∈ p0 :: rest, joinPath (outputDirOf p0) (baseName p) ≠ outputDirOf p0)
    (hdpar : ∀ p ∈ p0 :: rest,
      dirName (joinPath (outputDirOf p0) (baseName p)) = outputDirOf p0)
    (hsd : ∀ p ∈ p0 :: rest, ∀ q ∈ p0 :: rest,
      p ≠ joinPath (outputDirOf p0) (baseName q)) :
    ∃ fsF, MoveVideos fs (p0 :: rest) =
        (fsF, .ok ((p0 :: rest).length, outputDirOf p0)) ∧
      fsF.dirs = outputDirOf p0 :: fs.dirs ∧
      (∀ p ∈ p0 :: rest, fsF.fileAt p = none) ∧
      (∀ r, ((fsF.fileAt r).isSome = true ↔
        (((fs.fileAt r).isSome = true ∧ ¬ r ∈ p0 :: rest) ∨
          r ∈ (p0 :: rest).map (fun p => joinPath (outputDirOf p0) (baseName p))))) := by
  have hmk : fs.mkdir (outputDirOf p0) =
      .ok { fs with dirs := outputDirOf p0 :: fs.dirs } := by
    simp [FS.mkdir, hfresh, hpar]
  obtain ⟨m1, m2, m3, m4⟩ := moveLoop_ok (outputDirOf p0) (p0 :: rest)
    { fs with dirs := outputDirOf p0 :: fs.dirs } hnd
    (fun p hp => hmem p hp)
    (fun p hp => hcd p hp)
    (List.mem_cons_self _ _)
    (fun p hp => by
      show ¬ joinPath (outputDirOf p0) (baseName p) ∈ outputDirOf p0 :: fs.dirs
      rw [List.mem_cons]
      rintro (h1 | h2)
      · exact hdstne p hp h1
      · exact hdstd p hp h2)
    (fun p hp => hdpar p hp)
    (fun p hp q hq => hsd p hp q hq)
  cases hml : moveLoop { fs with dirs := outputDirOf p0 :: fs.dirs }
      (outputDirOf p0) (p0 :: rest) with
  | mk fsF res =>
    simp only [hml] at m1 m2 m3 m4
    subst m1
    refine ⟨fsF, ?_, m2, ?_, ?_⟩
    · simp only [MoveVideos, hmk, hml]
    · intro p hp
      have h5 : ¬ (fsF.fileAt p).isSome = true := by
        rw [m4 p]
        rintro (⟨_, hnot⟩ | hmap)
        · exact hnot hp
        · obtain ⟨q, hq, hpq⟩ := List.mem_map.mp hmap
          exact hsd p hp q hq hpq.symm
      exact Option.not_isSome_iff_eq_none.mp h5
    · intro r
      rw [m4 r]
      exact Iff.rfl

/-- C2 witness: five existing files in `/vids` move into the fresh
destination `/vids/a1_m4v`; the call reports count 5 with the
destination, the destination holds exactly the five basenames, and the
five sources are gone. -/
theorem c2_witness :
    ∃ fsF, MoveVideos fsAll
        ["/vids/a1.m4v", "/vids/a2.m4v", "/vids/a3.m4v", "/vids/a4.m4v", "/vids/a5.m4v"] =
        (fsF, .ok (5, "/vids/a1_m4v")) ∧
      fsF.dirs = "/vids/a1_m4v" :: fsAll.dirs ∧
      (∀ p ∈ ["/vids/a1.m4v", "/vids/a2.m4v", "/vids/a3.m4v", "/vids/a4.m4v",
        "/vids/a5.m4v"], fsF.fileAt p = none) ∧
      (∀ r, ((fsF.fileAt r).isSome = true ↔
        (((fsAll.fileAt r).isSome = true ∧
            ¬ r ∈ ["/vids/a1.m4v", "/vids/a2.m4v", "/vids/a3.m4v", "/vids/a4.m4v",
              "/vids/a5.m4v"]) ∨
          r ∈ ["/vids/a1.m4v", "/vids/a2.m4v", "/vids/a3.m4v", "/vids/a4.m4v",
            "/vids/a5.m4v"].map
            (fun p => joinPath "/vids/a1_m4v" (baseName p))))) := by
  obtain ⟨fsF, h1, h2, h3, h4⟩ := c2_move_all_success fsAll "/vids/a1.m4v"
    ["/vids/a2.m4v", "/vids/a3.m4v", "/vids/a4.m4v", "/vids/a5.m4v"]
    (by decide) (by decide) (by decide) (by decide) (by decide) (by decide)
    (by decide) (by decide) (by decide)
  exact ⟨fsF, h1, h2, h3, h4⟩

/-- C10: The per-file destination is the destination directory joined
with the basename of the source, so two distinct sources with equal
basenames map to the same destination path; when both renames succeed
the second overwrites the first (the destination ends up holding the
second file's content) and `MoveVideos` still returns success with a
moved count equal to the full length of the request. -/
theorem c10_basename_collision (fs : FS) (a b : String) (ca cb : Nat)
    (hab : a ≠ b)
    (hbase : baseName a = baseName b)
    (ha : fs.fileAt a = some ca) (hb : fs.fileAt b = some cb)
    (hacd : ¬ a ∈ fs.crossDev) (hbcd : ¬ b ∈ fs.crossDev)
    (hfresh : fs.pathExists (outputDirOf a) = false)
    (hpar : dirName (outputDirOf a) ∈ fs.dirs)
    (hdstd : ¬ joinPath (outputDirOf a) (baseName a) ∈ fs.dirs)
    (hdstne : joinPath (outputDirOf a) (baseName a) ≠ outputDirOf a)
    (hdpar : dirName (joinPath (outputDirOf a) (baseName a)) = outputDirOf a)
    (hbdst : b ≠ joinPath (outputDirOf a) (baseName a)) :
    ∃ fsF, MoveVideos fs [a, b] = (fsF, .ok (2, outputDirOf a)) ∧
      fsF.fileAt (joinPath (outputDirOf a) (baseName a)) = some cb ∧
      joinPath (outputDirOf a) (baseName a) = joinPath (outputDirOf a) (baseName b) := by
  have hjoin : joinPath (outputDirOf a) (baseName a) =
      joinPath (outputDirOf a) (baseName b) := by rw [hbase]
  have hmk : fs.mkdir (outputDirOf a) =
      .ok { fs with dirs := outputDirOf a :: fs.dirs } := by
    simp [FS.mkdir, hfresh, hpar]
  have hdst0 : ¬ joinPath (outputDirOf a) (baseName a) ∈
      ({ fs with dirs := outputDirOf a :: fs.dirs } : FS).dirs := by
    show ¬ _ ∈ outputDirOf a :: fs.dirs
    rw [List.mem_cons]
    rintro (h1 | h2)
    · exact hdstne h1
    · exact hdstd h2
  have hpar0 : dirName (joinPath (outputDirOf a) (baseName a)) ∈
      ({ fs with dirs := outputDirOf a :: fs.dirs } : FS).dirs := by
    rw [hdpar]
    exact List.mem_cons_self _ _
  have hs1 : ({ fs with dirs := outputDirOf a :: fs.dirs } : FS).rename a
      (joinPath (outputDirOf a) (baseName a)) =
      .ok (renamed { fs with dirs := outputDirOf a :: fs.dirs } a
        (joinPath (outputDirOf a) (baseName a)) ca) :=
    rename_ok _ a _ ca ha hacd hdst0 hpar0
  have hb1 : (renamed { fs with dirs := outputDirOf a :: fs.dirs } a
      (joinPath (outputDirOf a) (baseName a)) ca).fileAt b = some cb := by
    rw [fileAt_renamed, if_neg hbdst, if_neg (fun h => hab h.symm)]
    exact hb
  have hdst2 : ¬ joinPath (outputDirOf a) (baseName b) ∈
      (renamed { fs with dirs := outputDirOf a :: fs.dirs } a
        (joinPath (outputDirOf a) (baseName a)) ca).dirs := by
    rw [renamed_dirs, ← hjoin]
    exact hdst0
  have hpar2 : dirName (joinPath (outputDirOf a) (baseName b)) ∈
      (renamed { fs with dirs := outputDirOf a :: fs.dirs } a
        (joinPath (outputDirOf a) (baseName a)) ca).dirs := by
    rw [renamed_dirs, ← hjoin]
    exact hpar0
  have hs2 : (renamed { fs with dirs := outputDirOf a :: fs.dirs } a
      (joinPath (outputDirOf a) (baseName a)) ca).rename b
      (joinPath (outputDirOf a) (baseName b)) =
      .ok (renamed (renamed { fs with dirs := outputDirOf a :: fs.dirs } a
        (joinPath (outputDirOf a) (baseName a)) ca) b
        (joinPath (outputDirOf a) (baseName b)) cb) :=
    rename_ok _ b _ cb hb1 hbcd hdst2 hpar2
  refine ⟨renamed (renamed { fs with dirs := outputDirOf a :: fs.dirs } a
      (joinPath (outputDirOf a) (baseName a)) ca) b
      (joinPath (outputDirOf a) (baseName b)) cb, ?_, ?_, hjoin⟩
  · simp only [MoveVideos, hmk, moveLoop, hs1, hs2]
  · rw [fileAt_renamed, if_pos hjoin]

/-- C10 witness: `/x/v.m4v` (content 1) and `/y/v.m4v` (content 2)
share the basename `v.m4v`; both map to `/x/v_m4v/v.m4v`, the call
succeeds reporting count 2, and the destination holds the second
file's content. -/
theorem c10_witness :
    ∃ fsF, MoveVideos fsTwins ["/x/v.m4v", "/y/v.m4v"] = (fsF, .ok (2, "/x/v_m4v")) ∧
      fsF.fileAt "/x/v_m4v/v.m4v" = some 2 ∧
      joinPath "/x/v_m4v" (baseName "/x/v.m4v") =
        joinPath "/x/v_m4v" (baseName "/y/v.m4v") := by
  obtain ⟨fsF, h1, h2, h3⟩ := c10_basename_collision fsTwins "/x/v.m4v" "/y/v.m4v" 1 2
    (by decide) (by decide) (by decide) (by decide) (by decide) (by decide)
    (by decide) (by decide) (by decide) (by decide) (by decide) (by decide)
  exact ⟨fsF, h1, h2, h3⟩

/-- C6: Over any fully readable directory tree, the walk of
`SelectDirectory` succeeds and returns exactly the absolute paths of
the regular files whose name passes the case-insensitive extension
filter — every matching file is listed and no non-matching one is; in
particular, a tree with no matching files yields the empty list and no
error. -/
theorem c6_scan_exactly_matching (root : String) (es : List Entry)
    (h : allReadableL es = true) :
    ∃ l, SelectDirectoryScan root true es = (some l, none) ∧
      (∀ p, (p ∈ l ↔ ∃ e ∈ es, MatchPath root e p)) ∧
      ((∀ p, ¬ ∃ e ∈ es, MatchPath root e p) → l = []) := by
  obtain ⟨l, hl, hiff⟩ := walkEntries_ok root es h
  refine ⟨l, ?_, hiff, ?_⟩
  · simp [SelectDirectoryScan, hl]
  · intro hnone
    apply List.eq_nil_iff_forall_not_mem.mpr
    intro p hp
    exact hnone p ((hiff p).mp hp)

/-- C6 witness: a readable tree mixing matching (`a.m4v`, uppercase
`c.M4V`, nested `sub/d.m4v`) and non-matching (`b.mp4`, `notes.txt`)
entries is scanned without error and the returned list is
characterised exactly by the matching predicate. -/
theorem c6_witness :
    allReadableL treeMixed = true ∧
    ∃ l, SelectDirectoryScan "/root" true treeMixed = (some l, none) ∧
      (∀ p, (p ∈ l ↔ ∃ e ∈ treeMixed, MatchPath "/root" e p)) ∧
      ((∀ p, ¬ ∃ e ∈ treeMixed, MatchPath "/root" e p) → l = []) := by
  have h : allReadableL treeMixed = true := by simp [treeMixed, allReadableL]
  exact ⟨h, c6_scan_exactly_matching "/root" treeMixed h⟩

/-- C7: Whenever some directory of the tree (the root included) cannot
be read, the scan aborts: `SelectDirectory` returns no list at all —
matching files already discovered are discarded, not returned — along
with the underlying error. -/
theorem c7_scan_aborts_unreadable (root : String) (rootReadable : Bool) (es : List Entry)
    (h : rootReadable = false ∨ allReadableL es = false) :
    ∃ msg, SelectDirectoryScan root rootReadable es = (none, some msg) := by
  cases h with
  | inl h1 => exact ⟨root, by simp [SelectDirectoryScan, h1]⟩
  | inr h1 =>
    obtain ⟨msg, hm⟩ := walkEntries_err root es h1
    cases hrr : rootReadable with
    | false => exact ⟨root, by simp [SelectDirectoryScan]⟩
    | true => exact ⟨msg, by simp [SelectDirectoryScan, hm]⟩

/-- C7 witness: the tree holds a matching file `a.m4v` before an
unreadable subdirectory `locked`; the scan returns no list (the hit
found before the failure is discarded) and an error. -/
theorem c7_witness :
    allReadableL treeLocked = false ∧
    ∃ msg, SelectDirectoryScan "/root" true treeLocked = (none, some msg) := by
  have h : allReadableL treeLocked = false := by simp [treeLocked, allReadableL]
  exact ⟨h, c7_scan_aborts_unreadable "/root" true treeLocked (Or.inr h)⟩

/-- C8: `GenerateThumbnail` fails in exactly two distinct cases: (a)
the external tool run fails — the error carries the tool's message and
its captured stderr; (b) the run succeeds but produces zero bytes on
stdout — a no-data error distinct (different constructor) from (a).
Otherwise it returns the captured bytes base64 encoded as a JPEG data
URL; the definition performs the single given run, with no retry and no
fallback. -/
theorem c8_thumbnail_error_cases (videoPath : String) (run : ToolRun) :
    ((∃ err, GenerateThumbnail videoPath run = .error err) ↔
      (run.exitErr ≠ none ∨ run.stdout = [])) ∧
    (∀ msg, run.exitErr = some msg →
      GenerateThumbnail videoPath run =
        .error (.execFailed ("ffmpeg execution failed for " ++ videoPath ++ ": " ++ msg)
          run.stderr)) ∧
    (run.exitErr = none → run.stdout = [] →
      GenerateThumbnail videoPath run = .error (.noData videoPath)) ∧
    (run.exitErr = none → run.stdout ≠ [] →
      GenerateThumbnail videoPath run =
        .ok ("data:image/jpeg;base64," ++ String.mk (base64Encode run.stdout))) ∧
    (∀ m s p, ThumbErr.execFailed m s ≠ ThumbErr.noData p) := by
  refine ⟨?_, ?_, ?_, ?_, fun m s p h => ThumbErr.noConfusion h⟩
  · cases he : run.exitErr with
    | some msg =>
      simp only [GenerateThumbnail, he]
      exact ⟨fun _ => Or.inl (by simp), fun _ => ⟨_, rfl⟩⟩
    | none =>
      cases hstd : run.stdout with
      | nil => simp [GenerateThumbnail, he, hstd]
      | cons b bs => simp [GenerateThumbnail, he, hstd]
  · intro msg hmsg
    simp [GenerateThumbnail, hmsg]
  · intro he hstd
    simp [GenerateThumbnail, he, hstd]
  · intro he hstd
    simp [GenerateThumbnail, he, List.isEmpty_iff, hstd]

/-- C8 witness: a failed run surfaces the tool error with its stderr;
a clean run with empty stdout gives the distinct no-data error; a clean
run with bytes gives the JPEG data URL. -/
theorem c8_witness :
    GenerateThumbnail "/vids/x.m4v" ⟨some "exit status 1", [], "boom"⟩ =
      .error (.execFailed "ffmpeg execution failed for /vids/x.m4v: exit status 1" "boom") ∧
    GenerateThumbnail "/vids/x.m4v" ⟨none, [], "warn"⟩ =
      .error (.noData "/vids/x.m4v") ∧
    GenerateThumbnail "/vids/x.m4v" ⟨none, [255, 216], ""⟩ =
      .ok ("data:image/jpeg;base64," ++ String.mk (base64Encode [255, 216])) := by
  refine ⟨?_, ?_, ?_⟩
  · exact (c8_thumbnail_error_cases "/vids/x.m4v" ⟨some "exit status 1", [], "boom"⟩).2.1
      "exit status 1" rfl
  · exact (c8_thumbnail_error_cases "/vids/x.m4v" ⟨none, [], "warn"⟩).2.2.1 rfl rfl
  · exact (c8_thumbnail_error_cases "/vids/x.m4v" ⟨none, [255, 216], ""⟩).2.2.2.1 rfl
      (by decide)

end VideoGrouper
